import Mathlib

/-!
Shallow embedding of `src/EventEmitter.ts` (class `EventEmitter`).

The registry (`this.handlers`) is a JS object mapping event names to arrays
of listener records; we model it as an insertion-ordered association list
with `Nat` event identifiers and `Nat` callback references.  The diagnostic
collaborator (`js-logger`) is modelled by an append-only log in the state,
and listener invocations are recorded in an append-only call trace.  A
listener is an arbitrary JS function that may mutate the emitter through
its public API and may throw; we model its behaviour as a finite list of
registry operations followed by an optional throw.  `emit`'s loop iterates
the live array (`for i < this.handlers[event].length`), so it is given
fuel; `none` models abnormal outcomes (non-termination, or the TypeError a
JS run would raise when the event key disappears mid-loop).
-/

namespace EventEmitterModel

/-- `EventListener` from `src/EventListener.ts`: one registered callback
together with its `persistent` flag. -/
structure EventListener where
  listener : Nat
  persistent : Bool
deriving DecidableEq

/-- `this.handlers`: a JS object, i.e. an insertion-ordered key/value map. -/
abbrev Handlers := List (Nat × List EventListener)

/-- Reading `this.handlers[event]`: `none` models JS `undefined`. -/
def lookupEvent : Handlers → Nat → Option (List EventListener)
  | [], _ => none
  | p :: t, e => if p.1 = e then some p.2 else lookupEvent t e

/-- Writing `this.handlers[event] = v`: updates the existing key in place,
or appends a fresh key at the end (JS object insertion order). -/
def setEvent : Handlers → Nat → List EventListener → Handlers
  | [], e, v => [(e, v)]
  | p :: t, e, v => if p.1 = e then (e, v) :: t else p :: setEvent t e v

/-- `delete this.handlers[event]`. -/
def deleteEvent : Handlers → Nat → Handlers
  | [], _ => []
  | p :: t, e => if p.1 = e then deleteEvent t e else p :: deleteEvent t e

/-- One entry sent to the diagnostic collaborator (`js-logger`):
`log.warn` of the max-listener advisory, or `log.error` of a fault caught
during dispatch (we tag the fault with the throwing callback). -/
inductive LogEntry where
  | warn (maxListeners : Nat)
  | error (fault : Nat)
deriving DecidableEq

/-- The observable state of one `EventEmitter` instance, instrumented with
the diagnostic log and the trace of listener invocations (callback, args). -/
structure EmitterState where
  handlers : Handlers
  maxListeners : Nat
  log : List LogEntry
  calls : List (Nat × List Nat)
deriving DecidableEq

/-- `new EventEmitter(maxListeners?)`: `maxListeners || 10` (so an explicit
`0` also falls back to the default). -/
def mkEmitter (maxListeners : Option Nat) : EmitterState :=
  { handlers := []
    maxListeners := match maxListeners with
      | none => 10
      | some n => if n = 0 then 10 else n
    log := []
    calls := [] }

/-- `EventEmitter.on`: create the array if absent, warn when its current
length already reaches `maxListeners`, then unshift/push `{listener,
persistent: true}`. -/
def on' (s : EmitterState) (event cb : Nat) (prepend : Bool) : EmitterState :=
  let cur := (lookupEvent s.handlers event).getD []
  let log' :=
    if cur.length ≥ s.maxListeners then s.log ++ [LogEntry.warn s.maxListeners] else s.log
  let new := if prepend then ⟨cb, true⟩ :: cur else cur ++ [⟨cb, true⟩]
  { s with handlers := setEvent s.handlers event new, log := log' }

/-- `EventEmitter.once`: like `on` but with `persistent: false` and without
any max-listener check. -/
def once (s : EmitterState) (event cb : Nat) (prepend : Bool) : EmitterState :=
  let cur := (lookupEvent s.handlers event).getD []
  let new := if prepend then ⟨cb, false⟩ :: cur else cur ++ [⟨cb, false⟩]
  { s with handlers := setEvent s.handlers event new }

/-- The loop body of `EventEmitter.off`, iterating over the pre-computed
event list; mirrors the early `return this` after a successful splice.
(The `getD []` renders JS's array read; the key is always present when the
loop reaches it.) -/
def offLoop (cb : Option Nat) : List Nat → EmitterState → EmitterState
  | [], s => s
  | e :: rest, s =>
    match cb with
    | none => offLoop none rest { s with handlers := deleteEvent s.handlers e }
    | some c =>
      let lst := (lookupEvent s.handlers e).getD []
      if lst.length = 0 then
        offLoop (some c) rest { s with handlers := deleteEvent s.handlers e }
      else
        match lst.findIdx? (fun r => r.listener == c) with
        | some i =>
          let lst' := lst.eraseIdx i
          if lst'.length = 0 then { s with handlers := deleteEvent s.handlers e }
          else { s with handlers := setEvent s.handlers e lst' }
        | none => offLoop (some c) rest s

/-- `EventEmitter.events`: `Object.keys(this.handlers)`. -/
def events (s : EmitterState) : List Nat :=
  s.handlers.map (fun p => p.1)

/-- `EventEmitter.off`: filter `events()` by the optional event argument
(computed once, before the loop), then run the removal loop. -/
def off (s : EmitterState) (event : Option Nat) (cb : Option Nat) : EmitterState :=
  let evs := (events s).filter (fun e =>
    match event with
    | none => true
    | some ev => e == ev)
  offLoop cb evs s

/-- `EventEmitter.listeners`: a copy of the callback references currently
registered for the event (empty when absent). -/
def listeners (s : EmitterState) (event : Nat) : List Nat :=
  ((lookupEvent s.handlers event).getD []).map (fun r => r.listener)

/-- One registry operation a listener body may perform on the emitter while
it is being invoked. -/
inductive RegOp where
  | onOp (event cb : Nat) (prepend : Bool)
  | onceOp (event cb : Nat) (prepend : Bool)
  | offOp (event : Option Nat) (cb : Option Nat)

def applyOp (s : EmitterState) : RegOp → EmitterState
  | .onOp e c p => on' s e c p
  | .onceOp e c p => once s e c p
  | .offOp e c => off s e c

/-- The behaviour of one callback: the registry operations its body
performs, and whether it then throws. -/
structure Behavior where
  ops : List RegOp
  throws : Bool

/-- Assignment of behaviours to callback references. -/
abbrev Env := Nat → Behavior

/-- Invoking `this.handlers[event][i].listener(...args)`: record the call,
run the body's registry operations, and report whether it threw. -/
def invoke (env : Env) (s : EmitterState) (cb : Nat) (args : List Nat) :
    EmitterState × Bool :=
  let s1 := { s with calls := s.calls ++ [(cb, args)] }
  ((env cb).ops.foldl applyOp s1, (env cb).throws)

/-- The dispatch loop of `EventEmitter.emit`: `for (let i = 0; i <
this.handlers[event].length; i++)`, re-reading the live array each
iteration, with the per-invocation try/catch that funnels a fault into
`log.error`.  `none` models fuel exhaustion, or the TypeError JS raises
when the event key was deleted mid-loop. -/
def emitLoop (env : Env) (event : Nat) (args : List Nat)
    (fuel i : Nat) (s : EmitterState) : Option EmitterState :=
  match lookupEvent s.handlers event with
  | none => none
  | some lst =>
    if i < lst.length then
      match fuel with
      | 0 => none
      | fuel' + 1 =>
        let r := lst.getD i ⟨0, true⟩
        let res := invoke env s r.listener args
        let s' :=
          if res.2 then { res.1 with log := res.1.log ++ [LogEntry.error r.listener] }
          else res.1
        emitLoop env event args fuel' (i + 1) s'
    else some s
termination_by structural fuel

/-- `EventEmitter.emit`: return `false` when the event has no listeners;
otherwise run the live-iteration loop, then keep only the persistent
records, deleting the key when none remain, and return `true`. -/
def emit (env : Env) (fuel : Nat) (s : EmitterState) (event : Nat)
    (args : List Nat) : Option (EmitterState × Bool) :=
  match lookupEvent s.handlers event with
  | none => some (s, false)
  | some lst =>
    if lst.length = 0 then some (s, false)
    else
      match emitLoop env event args fuel 0 s with
      | none => none
      | some s' =>
        match lookupEvent s'.handlers event with
        | none => none
        | some lst' =>
          let kept := lst'.filter (fun r => r.persistent)
          let s'' :=
            if kept.length = 0 then { s' with handlers := deleteEvent s'.handlers event }
            else { s' with handlers := setEvent s'.handlers event kept }
          some (s'', true)

end EventEmitterModel

namespace EventEmitterModel

/-! ### Basic lemmas about the handlers map -/

theorem lookupEvent_setEvent_self (h : Handlers) (e : Nat) (v : List EventListener) :
    lookupEvent (setEvent h e v) e = some v := by
  induction h with
  | nil => simp [setEvent, lookupEvent]
  | cons p t ih =>
    by_cases hp : p.1 = e
    · simp [setEvent, lookupEvent, hp]
    · simp [setEvent, lookupEvent, hp, ih]

theorem lookupEvent_setEvent_ne (h : Handlers) (e e' : Nat) (v : List EventListener)
    (hne : e' ≠ e) :
    lookupEvent (setEvent h e v) e' = lookupEvent h e' := by
  induction h with
  | nil =>
    have h1 : ¬(e = e') := fun hh => hne hh.symm
    simp [setEvent, lookupEvent, h1]
  | cons p t ih =>
    obtain ⟨a, b⟩ := p
    by_cases hp : a = e
    · subst hp
      have h1 : ¬(a = e') := fun hh => hne hh.symm
      simp [setEvent, lookupEvent, h1]
    · by_cases hq : a = e'
      · simp [setEvent, lookupEvent, hp, hq, hne]
      · simp [setEvent, lookupEvent, hp, hq, ih]

theorem lookupEvent_deleteEvent_self (h : Handlers) (e : Nat) :
    lookupEvent (deleteEvent h e) e = none := by
  induction h with
  | nil => simp [deleteEvent, lookupEvent]
  | cons p t ih =>
    by_cases hp : p.1 = e
    · simp [deleteEvent, hp, ih]
    · simp [deleteEvent, lookupEvent, hp, ih]

theorem lookupEvent_deleteEvent_ne (h : Handlers) (e e' : Nat) (hne : e' ≠ e) :
    lookupEvent (deleteEvent h e) e' = lookupEvent h e' := by
  induction h with
  | nil => simp [deleteEvent]
  | cons p t ih =>
    obtain ⟨a, b⟩ := p
    by_cases hp : a = e
    · subst hp
      have h1 : ¬(a = e') := fun hh => hne hh.symm
      simp [deleteEvent, lookupEvent, h1, ih]
    · by_cases hq : a = e'
      · simp [deleteEvent, lookupEvent, hp, hq, hne]
      · simp [deleteEvent, lookupEvent, hp, hq, ih]

theorem lookupEvent_eq_none_iff (h : Handlers) (e : Nat) :
    lookupEvent h e = none ↔ e ∉ h.map (fun p => p.1) := by
  induction h with
  | nil => simp [lookupEvent]
  | cons p t ih =>
    obtain ⟨a, b⟩ := p
    by_cases hp : a = e
    · simp [lookupEvent, hp]
    · have h1 : ¬(e = a) := fun hh => hp hh.symm
      simp [lookupEvent, hp, h1, ih]

theorem lookupEvent_mem (h : Handlers) (e : Nat) (l : List EventListener)
    (hl : lookupEvent h e = some l) : (e, l) ∈ h := by
  induction h with
  | nil => simp [lookupEvent] at hl
  | cons p t ih =>
    obtain ⟨a, b⟩ := p
    by_cases hp : a = e
    · subst hp
      simp [lookupEvent] at hl
      subst hl
      exact List.mem_cons_self _ _
    · simp [lookupEvent, hp] at hl
      exact List.mem_cons_of_mem _ (ih hl)

theorem keys_setEvent (h : Handlers) (e : Nat) (v : List EventListener) :
    (setEvent h e v).map (fun p => p.1) =
      if e ∈ h.map (fun p => p.1) then h.map (fun p => p.1)
      else h.map (fun p => p.1) ++ [e] := by
  induction h with
  | nil => simp [setEvent]
  | cons p t ih =>
    by_cases hp : p.1 = e
    · simp [setEvent, hp]
    · have hne : e ≠ p.1 := fun hh => hp hh.symm
      by_cases hm : e ∈ t.map (fun p => p.1)
      · simp [setEvent, hp, hm, hne, ih]
      · simp [setEvent, hp, hm, hne, ih]

theorem mem_setEvent (h : Handlers) (e : Nat) (v : List EventListener)
    (q : Nat × List EventListener) (hq : q ∈ setEvent h e v) :
    q = (e, v) ∨ q ∈ h := by
  induction h with
  | nil => simp [setEvent] at hq; simp [hq]
  | cons p t ih =>
    by_cases hp : p.1 = e
    · simp [setEvent, hp] at hq
      rcases hq with hq | hq
      · left; simp [hq]
      · right; exact List.mem_cons_of_mem _ hq
    · simp [setEvent, hp] at hq
      rcases hq with hq | hq
      · right; simp [hq]
      · rcases ih hq with hh | hh
        · left; exact hh
        · right; exact List.mem_cons_of_mem _ hh

theorem deleteEvent_sublist (h : Handlers) (e : Nat) : (deleteEvent h e).Sublist h := by
  induction h with
  | nil => simp [deleteEvent]
  | cons p t ih =>
    by_cases hp : p.1 = e
    · simp only [deleteEvent, if_pos hp]
      exact ih.cons p
    · simp only [deleteEvent, if_neg hp]
      exact ih.cons₂ p

end EventEmitterModel

namespace EventEmitterModel

/-! ### Effect of the registration operations -/

theorem on_lookup_self (s : EmitterState) (e c : Nat) (p : Bool) :
    lookupEvent (on' s e c p).handlers e =
      some (if p then ⟨c, true⟩ :: (lookupEvent s.handlers e).getD []
            else (lookupEvent s.handlers e).getD [] ++ [⟨c, true⟩]) := by
  simp only [on']
  exact lookupEvent_setEvent_self _ _ _

theorem on_lookup_ne (s : EmitterState) (e e' c : Nat) (p : Bool) (hne : e' ≠ e) :
    lookupEvent (on' s e c p).handlers e' = lookupEvent s.handlers e' := by
  simp only [on']
  exact lookupEvent_setEvent_ne _ _ _ _ hne

theorem once_lookup_self (s : EmitterState) (e c : Nat) (p : Bool) :
    lookupEvent (once s e c p).handlers e =
      some (if p then ⟨c, false⟩ :: (lookupEvent s.handlers e).getD []
            else (lookupEvent s.handlers e).getD [] ++ [⟨c, false⟩]) := by
  simp only [once]
  exact lookupEvent_setEvent_self _ _ _

theorem once_lookup_ne (s : EmitterState) (e e' c : Nat) (p : Bool) (hne : e' ≠ e) :
    lookupEvent (once s e c p).handlers e' = lookupEvent s.handlers e' := by
  simp only [once]
  exact lookupEvent_setEvent_ne _ _ _ _ hne

theorem on_log (s : EmitterState) (e c : Nat) (p : Bool) :
    (on' s e c p).log = s.log ++
      (if ((lookupEvent s.handlers e).getD []).length ≥ s.maxListeners
       then [LogEntry.warn s.maxListeners] else []) := by
  simp only [on']
  split <;> simp

theorem on_calls (s : EmitterState) (e c : Nat) (p : Bool) : (on' s e c p).calls = s.calls := rfl

theorem on_max (s : EmitterState) (e c : Nat) (p : Bool) :
    (on' s e c p).maxListeners = s.maxListeners := rfl

theorem once_log (s : EmitterState) (e c : Nat) (p : Bool) : (once s e c p).log = s.log := rfl

theorem once_calls (s : EmitterState) (e c : Nat) (p : Bool) : (once s e c p).calls = s.calls := rfl

theorem once_max (s : EmitterState) (e c : Nat) (p : Bool) :
    (once s e c p).maxListeners = s.maxListeners := rfl

theorem offLoop_only_handlers (cb : Option Nat) (evs : List Nat) :
    ∀ s : EmitterState, (offLoop cb evs s).log = s.log ∧ (offLoop cb evs s).calls = s.calls ∧
      (offLoop cb evs s).maxListeners = s.maxListeners := by
  induction evs with
  | nil => intro s; simp [offLoop]
  | cons e rest ih =>
    intro s
    match cb with
    | none => simpa [offLoop] using ih _
    | some c =>
      simp only [offLoop]
      split
      · exact ih _
      · split
        · split <;> simp
        · exact ih _

theorem off_only_handlers (s : EmitterState) (event cb : Option Nat) :
    (off s event cb).log = s.log ∧ (off s event cb).calls = s.calls ∧
      (off s event cb).maxListeners = s.maxListeners := by
  simp only [off]
  exact offLoop_only_handlers _ _ _

end EventEmitterModel

namespace EventEmitterModel

/-! ### The registry invariant (spec §3): no key with an empty sequence,
and keys are unique (a JS object cannot hold duplicate keys). -/

def HInv (h : Handlers) : Prop :=
  (∀ p ∈ h, p.2 ≠ []) ∧ (h.map (fun p => p.1)).Nodup

def Inv (s : EmitterState) : Prop := HInv s.handlers

theorem hinv_setEvent (h : Handlers) (e : Nat) (v : List EventListener)
    (hh : HInv h) (hv : v ≠ []) : HInv (setEvent h e v) := by
  obtain ⟨h1, h2⟩ := hh
  constructor
  · intro p hp
    rcases mem_setEvent h e v p hp with rfl | hmem
    · exact hv
    · exact h1 p hmem
  · rw [keys_setEvent]
    split
    · exact h2
    · next hm => simp [List.nodup_append, h2, hm]

theorem hinv_deleteEvent (h : Handlers) (e : Nat) (hh : HInv h) : HInv (deleteEvent h e) := by
  obtain ⟨h1, h2⟩ := hh
  constructor
  · intro p hp
    exact h1 p ((deleteEvent_sublist h e).subset hp)
  · exact List.Nodup.sublist ((deleteEvent_sublist h e).map _) h2

theorem inv_on (s : EmitterState) (e c : Nat) (p : Bool) (hs : Inv s) : Inv (on' s e c p) := by
  refine hinv_setEvent _ _ _ hs ?_
  split <;> simp

theorem inv_once (s : EmitterState) (e c : Nat) (p : Bool) (hs : Inv s) : Inv (once s e c p) := by
  refine hinv_setEvent _ _ _ hs ?_
  split <;> simp

theorem inv_offLoop (cb : Option Nat) (evs : List Nat) :
    ∀ s : EmitterState, Inv s → Inv (offLoop cb evs s) := by
  induction evs with
  | nil => intro s hs; simpa [offLoop] using hs
  | cons e rest ih =>
    intro s hs
    match cb with
    | none =>
      simp only [offLoop]
      exact ih _ (hinv_deleteEvent _ _ hs)
    | some c =>
      simp only [offLoop]
      split
      · exact ih _ (hinv_deleteEvent _ _ hs)
      · next h0 =>
        split
        · next i hIdx =>
          split
          · exact hinv_deleteEvent _ _ hs
          · next hne =>
            exact hinv_setEvent _ _ _ hs (fun hnil => hne (by rw [hnil]; rfl))
        · exact ih _ hs

theorem inv_off (s : EmitterState) (event cb : Option Nat) (hs : Inv s) : Inv (off s event cb) :=
  inv_offLoop _ _ _ hs

theorem inv_applyOp (s : EmitterState) (op : RegOp) (hs : Inv s) : Inv (applyOp s op) := by
  cases op with
  | onOp e c p => exact inv_on _ _ _ _ hs
  | onceOp e c p => exact inv_once _ _ _ _ hs
  | offOp e c => exact inv_off _ _ _ hs

theorem inv_foldl_applyOp (ops : List RegOp) :
    ∀ s : EmitterState, Inv s → Inv (ops.foldl applyOp s) := by
  induction ops with
  | nil => intro s hs; simpa using hs
  | cons op rest ih => intro s hs; exact ih _ (inv_applyOp _ _ hs)

theorem inv_invoke (env : Env) (s : EmitterState) (cb : Nat) (args : List Nat) (hs : Inv s) :
    Inv (invoke env s cb args).1 := by
  simp only [invoke]
  exact inv_foldl_applyOp _ _ hs

theorem inv_emitLoop (env : Env) (event : Nat) (args : List Nat) :
    ∀ (fuel : Nat) (i : Nat) (s : EmitterState), Inv s →
      ∀ s', emitLoop env event args fuel i s = some s' → Inv s' := by
  intro fuel
  induction fuel with
  | zero =>
    intro i s hs s' h
    rw [emitLoop] at h
    split at h
    · exact absurd h (by simp)
    · split at h
      · exact absurd h (by simp)
      · cases h
        exact hs
  | succ fuel ih =>
    intro i s hs s' h
    rw [emitLoop] at h
    split at h
    · exact absurd h (by simp)
    · split at h
      · refine ih _ _ ?_ _ h
        split
        · exact inv_invoke env s _ args hs
        · exact inv_invoke env s _ args hs
      · cases h
        exact hs

theorem inv_emit (env : Env) (fuel : Nat) (s : EmitterState) (event : Nat) (args : List Nat)
    (s' : EmitterState) (b : Bool) (hs : Inv s)
    (h : emit env fuel s event args = some (s', b)) : Inv s' := by
  rw [emit] at h
  split at h
  · cases h; exact hs
  · split at h
    · cases h; exact hs
    · split at h
      · exact absurd h (by simp)
      · next s2 hLoop =>
        split at h
        · exact absurd h (by simp)
        · next lst' hl' =>
          have hs2 : Inv s2 := inv_emitLoop env event args fuel 0 s hs s2 hLoop
          dsimp only at h
          split at h
          · cases h
            exact hinv_deleteEvent _ _ hs2
          · next hk =>
            cases h
            refine hinv_setEvent _ _ _ hs2 (fun hnil => hk (by rw [hnil]; rfl))

end EventEmitterModel

namespace EventEmitterModel

/-! ### Dispatch under listeners that do not mutate the registry -/

/-- Listener behaviours that perform no registry operation (they may still
throw). -/
def InertEnv (env : Env) : Prop := ∀ c, (env c).ops = []

/-- The `log.error` entries one dispatch pass over `lst` produces. -/
def errTrace (env : Env) (lst : List EventListener) : List LogEntry :=
  lst.filterMap (fun r =>
    if (env r.listener).throws then some (LogEntry.error r.listener) else none)

theorem errTrace_nil (env : Env) : errTrace env [] = [] := rfl

theorem errTrace_cons_throws (env : Env) (r : EventListener) (rest : List EventListener)
    (h : (env r.listener).throws = true) :
    errTrace env (r :: rest) = LogEntry.error r.listener :: errTrace env rest := by
  simp [errTrace, h]

theorem errTrace_cons_nothrow (env : Env) (r : EventListener) (rest : List EventListener)
    (h : ¬(env r.listener).throws = true) :
    errTrace env (r :: rest) = errTrace env rest := by
  simp [errTrace, h]

theorem invoke_inert (env : Env) (hIn : InertEnv env) (s : EmitterState) (cb : Nat)
    (args : List Nat) :
    invoke env s cb args = ({ s with calls := s.calls ++ [(cb, args)] }, (env cb).throws) := by
  simp [invoke, hIn cb]

theorem emitLoop_inert (env : Env) (hIn : InertEnv env) (event : Nat) (args : List Nat) :
    ∀ (fuel i : Nat) (s : EmitterState) (lst : List EventListener),
      lookupEvent s.handlers event = some lst →
      emitLoop env event args fuel i s =
        (if lst.length - i ≤ fuel then
          some { s with
            calls := s.calls ++ (lst.drop i).map (fun r => (r.listener, args)),
            log := s.log ++ errTrace env (lst.drop i) }
        else none) := by
  intro fuel
  induction fuel with
  | zero =>
    intro i s lst hl
    rw [emitLoop]
    split
    · next heq => rw [hl] at heq; cases heq
    · next lst2 heq =>
      rw [hl] at heq
      obtain rfl : lst = lst2 := Option.some.inj heq
      by_cases hi : i < lst.length
      · have hc : ¬(lst.length - i ≤ 0) := by omega
        rw [if_pos hi, if_neg hc]
      · have hc : lst.length - i ≤ 0 := by omega
        have hd : lst.drop i = [] := List.drop_eq_nil_of_le (by omega)
        rw [if_neg hi, if_pos hc]
        simp [hd, errTrace]
  | succ fuel ih =>
    intro i s lst hl
    rw [emitLoop]
    split
    · next heq => rw [hl] at heq; cases heq
    · next lst2 heq =>
      rw [hl] at heq
      obtain rfl : lst = lst2 := Option.some.inj heq
      by_cases hi : i < lst.length
      · rw [if_pos hi]
        dsimp only
        simp only [invoke_inert env hIn]
        have hgetD : lst.getD i ⟨0, true⟩ = lst[i] := List.getD_eq_getElem lst ⟨0, true⟩ hi
        have hdrop : lst.drop i = lst[i] :: lst.drop (i + 1) := List.drop_eq_getElem_cons hi
        by_cases ht : (env (lst.getD i ⟨0, true⟩).listener).throws = true
        · rw [if_pos ht]
          refine (ih (i + 1) _ lst ?_).trans ?_
          · exact hl
          · by_cases hc : lst.length - i ≤ fuel + 1
            · rw [if_pos (by omega : lst.length - (i + 1) ≤ fuel), if_pos hc]
              rw [hgetD] at ht
              rw [hdrop, errTrace_cons_throws env _ _ ht, List.map_cons, hgetD]
              simp [List.append_assoc]
            · rw [if_neg (by omega : ¬lst.length - (i + 1) ≤ fuel), if_neg hc]
        · rw [if_neg ht]
          refine (ih (i + 1) _ lst ?_).trans ?_
          · exact hl
          · by_cases hc : lst.length - i ≤ fuel + 1
            · rw [if_pos (by omega : lst.length - (i + 1) ≤ fuel), if_pos hc]
              rw [hgetD] at ht
              rw [hdrop, errTrace_cons_nothrow env _ _ ht, List.map_cons, hgetD]
              simp [List.append_assoc]
            · rw [if_neg (by omega : ¬lst.length - (i + 1) ≤ fuel), if_neg hc]
      · have hc : lst.length - i ≤ fuel + 1 := by omega
        have hd : lst.drop i = [] := List.drop_eq_nil_of_le (by omega)
        rw [if_neg hi, if_pos hc]
        simp [hd, errTrace]

end EventEmitterModel

namespace EventEmitterModel

theorem emit_false (env : Env) (fuel : Nat) (s : EmitterState) (event : Nat) (args : List Nat)
    (h0 : (lookupEvent s.handlers event).getD [] = []) :
    emit env fuel s event args = some (s, false) := by
  rw [emit]
  split
  · rfl
  · next lst heq =>
    rw [heq] at h0
    simp only [Option.getD_some] at h0
    rw [if_pos (by simp [h0])]

theorem emit_inert (env : Env) (hIn : InertEnv env) (fuel : Nat) (s : EmitterState)
    (event : Nat) (args : List Nat) (lst : List EventListener)
    (hl : lookupEvent s.handlers event = some lst) (hne : lst ≠ [])
    (hf : lst.length ≤ fuel) :
    emit env fuel s event args = some
      ({ s with
          handlers :=
            if (lst.filter (fun r => r.persistent)).length = 0 then deleteEvent s.handlers event
            else setEvent s.handlers event (lst.filter (fun r => r.persistent)),
          calls := s.calls ++ lst.map (fun r => (r.listener, args)),
          log := s.log ++ errTrace env lst }, true) := by
  rw [emit]
  split
  · next heq => rw [hl] at heq; cases heq
  · next lst2 heq =>
    rw [hl] at heq
    obtain rfl : lst = lst2 := Option.some.inj heq
    rw [if_neg (by simpa [List.length_eq_zero] using hne)]
    rw [emitLoop_inert env hIn event args fuel 0 s lst hl]
    rw [if_pos (by omega : lst.length - 0 ≤ fuel)]
    simp only [List.drop_zero]
    rw [hl]
    dsimp only
    by_cases hk : (List.filter (fun r => r.persistent) lst).length = 0
    · rw [if_pos hk, if_pos hk]
    · rw [if_neg hk, if_neg hk]

theorem emit_inert_none (env : Env) (hIn : InertEnv env) (fuel : Nat) (s : EmitterState)
    (event : Nat) (args : List Nat) (lst : List EventListener)
    (hl : lookupEvent s.handlers event = some lst) (hne : lst ≠ [])
    (hf : fuel < lst.length) :
    emit env fuel s event args = none := by
  rw [emit]
  split
  · next heq => rw [hl] at heq; cases heq
  · next lst2 heq =>
    rw [hl] at heq
    obtain rfl : lst = lst2 := Option.some.inj heq
    rw [if_neg (by simpa [List.length_eq_zero] using hne)]
    rw [emitLoop_inert env hIn event args fuel 0 s lst hl]
    rw [if_neg (by omega : ¬lst.length - 0 ≤ fuel)]

end EventEmitterModel

namespace EventEmitterModel

/-! ### Analysis of `off` -/

theorem off_some_eq (s : EmitterState) (ev : Nat) (cb : Option Nat) :
    off s (some ev) cb = offLoop cb ((events s).filter (fun e => e == ev)) s := rfl

theorem off_none_eq (s : EmitterState) (cb : Option Nat) :
    off s none cb = offLoop cb (events s) s := by
  show offLoop cb ((events s).filter (fun _ => true)) s = offLoop cb (events s) s
  rw [List.filter_true]

theorem lookupEvent_isSome_of_mem (h : Handlers) (e : Nat)
    (hm : e ∈ h.map (fun p => p.1)) : ∃ l, lookupEvent h e = some l := by
  cases hl : lookupEvent h e with
  | none => exact absurd hm ((lookupEvent_eq_none_iff h e).1 hl)
  | some l => exact ⟨l, rfl⟩

theorem lookup_ne_nil_of_inv (s : EmitterState) (hs : Inv s) (e : Nat)
    (l : List EventListener) (hl : lookupEvent s.handlers e = some l) : l ≠ [] :=
  hs.1 (e, l) (lookupEvent_mem _ _ _ hl)

theorem filter_beq_of_nodup (l : List Nat) (e : Nat) (hnd : l.Nodup) :
    l.filter (fun x => x == e) = if e ∈ l then [e] else [] := by
  induction l with
  | nil => simp
  | cons a t ih =>
    simp only [List.nodup_cons] at hnd
    obtain ⟨ha, ht⟩ := hnd
    by_cases hae : a = e
    · subst hae
      have hrest : t.filter (fun x => x == a) = [] := by
        rw [List.filter_eq_nil_iff]
        intro x hx
        simp only [beq_iff_eq]
        exact fun hxa => ha (hxa ▸ hx)
      simp [List.filter_cons, hrest]
    · have h1 : ¬(e = a) := fun hh => hae hh.symm
      simp [List.filter_cons, hae, h1, ih ht]

/-- The removal loop, for a callback filter: the state is unchanged until
the first event whose sequence contains the callback, from which exactly the
earliest matching record is removed; the loop then returns at once. -/
theorem offLoop_spec (cb : Nat) (evs : List Nat) (s : EmitterState) (hs : Inv s)
    (hlive : ∀ e ∈ evs, lookupEvent s.handlers e ≠ none) :
    match evs.find? (fun e =>
        ((lookupEvent s.handlers e).getD []).any (fun r => r.listener == cb)) with
    | none => offLoop (some cb) evs s = s
    | some e0 =>
        (∀ e', e' ≠ e0 →
          lookupEvent (offLoop (some cb) evs s).handlers e' = lookupEvent s.handlers e') ∧
        ∃ i, ((lookupEvent s.handlers e0).getD []).findIdx? (fun r => r.listener == cb) = some i ∧
          (lookupEvent (offLoop (some cb) evs s).handlers e0).getD [] =
            ((lookupEvent s.handlers e0).getD []).eraseIdx i := by
  induction evs with
  | nil => simp [offLoop]
  | cons e rest ih =>
    obtain ⟨l, hl⟩ := lookupEvent_isSome_of_mem s.handlers e
      (by
        cases hm : lookupEvent s.handlers e with
        | none => exact absurd hm (hlive e (List.mem_cons_self e rest))
        | some l2 => exact (lookupEvent_eq_none_iff s.handlers e).not_left.1 (by simp [hm]))
    have hlnil : l ≠ [] := lookup_ne_nil_of_inv s hs e l hl
    have hlen0 : ¬(((lookupEvent s.handlers e).getD []).length = 0) := by
      rw [hl]
      simpa [List.length_eq_zero] using hlnil
    by_cases hany : ((lookupEvent s.handlers e).getD []).any (fun r => r.listener == cb) = true
    · rw [List.find?_cons_of_pos rest hany]
      have hIdx : ∃ i, ((lookupEvent s.handlers e).getD []).findIdx?
          (fun r => r.listener == cb) = some i := by
        cases hfi : ((lookupEvent s.handlers e).getD []).findIdx? (fun r => r.listener == cb) with
        | none =>
          rw [List.findIdx?_eq_none_iff] at hfi
          obtain ⟨x, hx, hpx⟩ := List.any_eq_true.1 hany
          rw [hfi x hx] at hpx
          cases hpx
        | some i => exact ⟨i, rfl⟩
      obtain ⟨i, hi⟩ := hIdx
      have hred : offLoop (some cb) (e :: rest) s =
          (if ((((lookupEvent s.handlers e).getD []).eraseIdx i).length = 0)
           then { s with handlers := deleteEvent s.handlers e }
           else { s with
                  handlers := setEvent s.handlers e
                    (((lookupEvent s.handlers e).getD []).eraseIdx i) }) := by
        simp only [offLoop]
        rw [if_neg hlen0, hi]
      rw [hred]
      by_cases hk : ((((lookupEvent s.handlers e).getD []).eraseIdx i).length = 0)
      · rw [if_pos hk]
        refine ⟨?_, i, hi, ?_⟩
        · intro e' hne
          exact lookupEvent_deleteEvent_ne s.handlers e e' hne
        · rw [List.length_eq_zero] at hk
          simp [lookupEvent_deleteEvent_self, hk]
      · rw [if_neg hk]
        refine ⟨?_, i, hi, ?_⟩
        · intro e' hne
          exact lookupEvent_setEvent_ne s.handlers e e' _ hne
        · simp [lookupEvent_setEvent_self]
    · rw [List.find?_cons_of_neg rest (by simpa using hany)]
      have hred : offLoop (some cb) (e :: rest) s = offLoop (some cb) rest s := by
        simp only [offLoop]
        rw [if_neg hlen0]
        have hfi : ((lookupEvent s.handlers e).getD []).findIdx?
            (fun r => r.listener == cb) = none := by
          rw [List.findIdx?_eq_none_iff]
          intro x hx
          by_contra hx2
          exact hany (List.any_eq_true.2 ⟨x, hx, by simpa using hx2⟩)
        rw [hfi]
      rw [hred]
      exact ih (fun e2 h2 => hlive e2 (List.mem_cons_of_mem e h2))

end EventEmitterModel

namespace EventEmitterModel

/-! ### Concrete scenarios used by counterexamples and witnesses -/

/-- Behaviours in which every callback is a no-op. -/
def inertEnv : Env := fun _ => ⟨[], false⟩

theorem inertEnv_inert : InertEnv inertEnv := fun _ => rfl

/-- Callback 1 registers callback 2 (persistently) on event 0 while being
dispatched; every other callback is a no-op. -/
def envAppend : Env := fun c => if c = 1 then ⟨[RegOp.onOp 0 2 false], false⟩ else ⟨[], false⟩

/-- Callback 1 registers one-shot callback 2 on event 0 while being
dispatched; every other callback is a no-op. -/
def envOnceDuringDispatch : Env :=
  fun c => if c = 1 then ⟨[RegOp.onceOp 0 2 false], false⟩ else ⟨[], false⟩

/-- Callback 1 throws; every callback is registry-inert. -/
def envThrow1 : Env := fun c => ⟨[], c == 1⟩

theorem envThrow1_inert : InertEnv envThrow1 := fun _ => rfl

def stateOneListener : EmitterState :=
  { handlers := [(0, [⟨1, true⟩])], maxListeners := 10, log := [], calls := [] }

def stateTwoListeners : EmitterState :=
  { handlers := [(0, [⟨1, true⟩, ⟨2, true⟩])], maxListeners := 10, log := [], calls := [] }

def stateTwoEvents : EmitterState :=
  { handlers := [(0, [⟨5, true⟩]), (1, [⟨5, true⟩])], maxListeners := 10, log := [], calls := [] }

def stateDup : EmitterState :=
  { handlers := [(0, [⟨4, true⟩, ⟨4, true⟩])], maxListeners := 10, log := [], calls := [] }

def stateOneOnceMax1 : EmitterState :=
  { handlers := [(0, [⟨1, false⟩])], maxListeners := 1, log := [], calls := [] }

/-- The state `emit envOnceDuringDispatch 5 stateOneListener 0 []` produces. -/
def stateAfterDispatch : EmitterState :=
  { handlers := [(0, [⟨1, true⟩])], maxListeners := 10, log := [], calls := [(1, []), (2, [])] }

/-! ### Claim theorems -/

/-- C1, counterexample: `emit` iterates the live array, not a snapshot.  In
`stateOneListener` only callback 1 is registered for event 0, yet dispatch
also invokes callback 2, which callback 1 appended during this very
dispatch pass — the claim says callback 2 must not be invoked in this
pass. -/
theorem C1_counterexample :
    listeners stateOneListener 0 = [1] ∧
    (emit envAppend 10 stateOneListener 0 []).map (fun p => p.1.calls) =
      some [(1, []), (2, [])] := by
  exact ⟨rfl, rfl⟩

/-- C1, amended: `emit` iterates the event's live sequence by index; when no
invoked listener mutates the registry, the invoked listeners are exactly
those present at dispatch start, in sequence order, with the arguments
passed unchanged (a listener appended during dispatch is, however, invoked
in the same pass — see the counterexample). -/
theorem C1_emit_invokes_initial_sequence_when_inert (env : Env) (hIn : InertEnv env)
    (s : EmitterState) (event : Nat) (args : List Nat) (lst : List EventListener)
    (hl : lookupEvent s.handlers event = some lst) (hne : lst ≠ [])
    (fuel : Nat) (hf : lst.length ≤ fuel) :
    ∃ s', emit env fuel s event args = some (s', true) ∧
      s'.calls = s.calls ++ lst.map (fun r => (r.listener, args)) :=
  ⟨_, emit_inert env hIn fuel s event args lst hl hne hf, rfl⟩

theorem C1_witness :
    ∃ s', emit inertEnv 1 stateOneListener 0 [] = some (s', true) ∧
      s'.calls = stateOneListener.calls ++
        [EventListener.mk 1 true].map (fun r => (r.listener, ([] : List Nat))) :=
  C1_emit_invokes_initial_sequence_when_inert inertEnv inertEnv_inert stateOneListener 0 []
    [⟨1, true⟩] rfl (by decide) 1 (by decide)

/-- C2: with listeners that may throw (but do not mutate the registry),
`emit` invokes all N registered listeners in order even when some of them
throw, appends one `log.error` report per throwing listener to the
diagnostic log, returns normally (the fault does not propagate), and
returns `true`. -/
theorem C2_faulting_listener_isolated (env : Env) (hIn : InertEnv env)
    (s : EmitterState) (event : Nat) (args : List Nat) (lst : List EventListener)
    (hl : lookupEvent s.handlers event = some lst) (hne : lst ≠ [])
    (fuel : Nat) (hf : lst.length ≤ fuel) :
    ∃ s', emit env fuel s event args = some (s', true) ∧
      s'.calls = s.calls ++ lst.map (fun r => (r.listener, args)) ∧
      s'.log = s.log ++ errTrace env lst :=
  ⟨_, emit_inert env hIn fuel s event args lst hl hne hf, rfl, rfl⟩

theorem C2_witness :
    ∃ s', emit envThrow1 2 stateTwoListeners 0 [7] = some (s', true) ∧
      s'.calls = stateTwoListeners.calls ++
        [EventListener.mk 1 true, EventListener.mk 2 true].map (fun r => (r.listener, [7])) ∧
      s'.log = stateTwoListeners.log ++
        errTrace envThrow1 [EventListener.mk 1 true, EventListener.mk 2 true] :=
  C2_faulting_listener_isolated envThrow1 envThrow1_inert stateTwoListeners 0 [7]
    [⟨1, true⟩, ⟨2, true⟩] rfl (by decide) 2 (by decide)

/-- C4: `emit` returns `false` immediately, with the state (registry,
diagnostic log and call trace) completely unchanged, exactly when the event
has no listener at dispatch start; whenever it returns at all, it returns
`true` if and only if the event had at least one listener at dispatch
start. -/
theorem C4_emit_return_value (env : Env) (fuel : Nat) (s : EmitterState) (event : Nat)
    (args : List Nat) :
    ((lookupEvent s.handlers event).getD [] = [] → emit env fuel s event args = some (s, false)) ∧
    (∀ s' b, emit env fuel s event args = some (s', b) →
      ((b = true ↔ (lookupEvent s.handlers event).getD [] ≠ []) ∧ (b = false → s' = s))) := by
  constructor
  · exact emit_false env fuel s event args
  · intro s' b h
    rw [emit] at h
    split at h
    · next heq =>
      rw [Option.some.injEq, Prod.mk.injEq] at h
      obtain ⟨rfl, rfl⟩ := h
      simp [heq]
    · next lst heq =>
      split at h
      · next h0 =>
        rw [Option.some.injEq, Prod.mk.injEq] at h
        obtain ⟨rfl, rfl⟩ := h
        simp [heq, List.length_eq_zero.1 h0]
      · next h0 =>
        split at h
        · exact absurd h (by simp)
        · next s2 hLoop =>
          split at h
          · exact absurd h (by simp)
          · next lst' hl' =>
            dsimp only at h
            rw [Option.some.injEq, Prod.mk.injEq] at h
            obtain ⟨rfl, rfl⟩ := h
            constructor
            · simp only [heq, Option.getD_some]
              constructor
              · intro _
                exact fun hnil => h0 (by rw [hnil]; rfl)
              · intro _
                trivial
            · intro hb
              cases hb

theorem C4_witness :
    emit inertEnv 0 (mkEmitter none) 5 [] = some (mkEmitter none, false) :=
  (C4_emit_return_value inertEnv 0 (mkEmitter none) 5 []).1 rfl

/-- C9: registration order.  `on` and `once` append the callback at the tail
of the event's listener sequence when `prepend` is absent/false and insert
it at the head when `prepend` is true, leaving all previously registered
callbacks in their order. -/
theorem C9_registration_order (s : EmitterState) (event cb : Nat) :
    listeners (on' s event cb false) event = listeners s event ++ [cb] ∧
    listeners (on' s event cb true) event = cb :: listeners s event ∧
    listeners (once s event cb false) event = listeners s event ++ [cb] ∧
    listeners (once s event cb true) event = cb :: listeners s event := by
  refine ⟨?_, ?_, ?_, ?_⟩ <;>
    simp [listeners, on_lookup_self, once_lookup_self]

/-- C10: immediately after an `emit` that returns `true`, every record still
registered under the dispatched event is persistent — the post-dispatch
filter removes every non-persistent record present at that moment, whether
or not it was part of the initial sequence (the witness dispatches a
listener that registers a `once` listener mid-pass). -/
theorem C10_post_dispatch_all_persistent (env : Env) (fuel : Nat) (s : EmitterState)
    (event : Nat) (args : List Nat) (s' : EmitterState)
    (h : emit env fuel s event args = some (s', true)) :
    ((lookupEvent s'.handlers event).getD []).all (fun r => r.persistent) = true := by
  rw [emit] at h
  split at h
  · exact absurd h (by simp)
  · split at h
    · exact absurd h (by simp)
    · split at h
      · exact absurd h (by simp)
      · next s2 hLoop =>
        split at h
        · exact absurd h (by simp)
        · next lst' hl' =>
          dsimp only at h
          split at h
          · next hk =>
            rw [Option.some.injEq, Prod.mk.injEq] at h
            obtain ⟨h1, -⟩ := h
            rw [← h1]
            simp [lookupEvent_deleteEvent_self]
          · next hk =>
            rw [Option.some.injEq, Prod.mk.injEq] at h
            obtain ⟨h1, -⟩ := h
            rw [← h1]
            simp only [lookupEvent_setEvent_self, Option.getD_some, List.all_eq_true]
            intro r hr
            exact (List.mem_filter.1 hr).2

theorem C10_witness :
    ((lookupEvent stateAfterDispatch.handlers 0).getD []).all (fun r => r.persistent) = true :=
  C10_post_dispatch_all_persistent envOnceDuringDispatch 5 stateOneListener 0 []
    stateAfterDispatch (by decide)

end EventEmitterModel

namespace EventEmitterModel

/-- C5: every registry operation preserves the §3 invariant (no event key
with an empty sequence, keys unique), and consequently `events()` returns
exactly the identifiers with at least one registered listener, their count
being the count of mapping keys. -/
theorem C5_invariant_preserved (s : EmitterState) (hs : Inv s) :
    (∀ e c p, Inv (on' s e c p)) ∧
    (∀ e c p, Inv (once s e c p)) ∧
    (∀ ev cb, Inv (off s ev cb)) ∧
    (∀ env fuel event args s' b, emit env fuel s event args = some (s', b) → Inv s') ∧
    (∀ e, e ∈ events s ↔ ∃ l, lookupEvent s.handlers e = some l ∧ l ≠ []) ∧
    (events s).length = s.handlers.length := by
  refine ⟨fun e c p => inv_on s e c p hs,
    fun e c p => inv_once s e c p hs,
    fun ev cb => inv_off s ev cb hs,
    fun env fuel event args s' b h => inv_emit env fuel s event args s' b hs h,
    ?_, by simp [events]⟩
  intro e
  constructor
  · intro he
    obtain ⟨l, hl⟩ := lookupEvent_isSome_of_mem s.handlers e (by simpa [events] using he)
    exact ⟨l, hl, lookup_ne_nil_of_inv s hs e l hl⟩
  · rintro ⟨l, hl, -⟩
    by_contra hmem
    simp only [events] at hmem
    rw [(lookupEvent_eq_none_iff s.handlers e).2 hmem] at hl
    cases hl

theorem C5_witness : Inv (on' (mkEmitter none) 0 1 false) :=
  (C5_invariant_preserved (mkEmitter none) ⟨by simp [mkEmitter], by simp [mkEmitter]⟩).1 0 1 false

/-- C8, counterexample: with `maxListeners = 1`, a `once` registration that
makes the sequence length 2 (≥ the maximum) sends no warning at all to the
diagnostic log — the claim requires a warning for `once` as well. -/
theorem C8_counterexample :
    (once stateOneOnceMax1 0 2 false).log = [] ∧
    (listeners (once stateOneOnceMax1 0 2 false) 0).length = 2 ∧
    stateOneOnceMax1.maxListeners = 1 := by
  exact ⟨rfl, rfl, rfl⟩

/-- C8, amended: only `on` consults the threshold, and it warns exactly when
the sequence length before insertion already reaches the configured
maximum (equivalently, when the resulting length strictly exceeds it);
`once` never warns.  In every case the record is inserted (the sequence
grows by one and contains the callback) and no error is raised. -/
theorem C8_advisory_threshold (s : EmitterState) (event cb : Nat) (p : Bool) :
    ((on' s event cb p).log = s.log ++
      (if ((lookupEvent s.handlers event).getD []).length ≥ s.maxListeners
       then [LogEntry.warn s.maxListeners] else [])) ∧
    (listeners (on' s event cb p) event).length = (listeners s event).length + 1 ∧
    cb ∈ listeners (on' s event cb p) event ∧
    (once s event cb p).log = s.log ∧
    (listeners (once s event cb p) event).length = (listeners s event).length + 1 ∧
    cb ∈ listeners (once s event cb p) event := by
  refine ⟨on_log s event cb p, ?_, ?_, once_log s event cb p, ?_, ?_⟩ <;>
    cases p <;> simp [listeners, on_lookup_self, once_lookup_self]

end EventEmitterModel

namespace EventEmitterModel

theorem findIdx?_eq_none_of_not_any (l : List EventListener) (cb : Nat)
    (h : ¬(l.any (fun r => r.listener == cb) = true)) :
    l.findIdx? (fun r => r.listener == cb) = none := by
  rw [List.findIdx?_eq_none_iff]
  intro x hx
  by_contra hx2
  exact h (List.any_eq_true.2 ⟨x, hx, by simpa using hx2⟩)

/-- C6: `off(event, callback)` removes at most one record: the one at the
first index whose callback matches (earliest registered), leaving later
duplicates in place; when the event has no listeners or nothing matches,
the state is returned unchanged (and no error is raised — `off` is total);
listeners of other events, the diagnostic log and the call trace are
untouched. -/
theorem C6_off_removes_first_match (s : EmitterState) (hs : Inv s) (event cb : Nat) :
    (∀ e', e' ≠ event →
      lookupEvent (off s (some event) (some cb)).handlers e' = lookupEvent s.handlers e') ∧
    (match ((lookupEvent s.handlers event).getD []).findIdx? (fun r => r.listener == cb) with
     | none => off s (some event) (some cb) = s
     | some i =>
        (lookupEvent (off s (some event) (some cb)).handlers event).getD [] =
          ((lookupEvent s.handlers event).getD []).eraseIdx i) ∧
    (off s (some event) (some cb)).log = s.log ∧
    (off s (some event) (some cb)).calls = s.calls := by
  have hoff := off_some_eq s event (some cb)
  have hfilter := filter_beq_of_nodup (events s) event hs.2
  by_cases hmem : event ∈ events s
  · rw [if_pos hmem] at hfilter
    rw [hoff, hfilter]
    obtain ⟨l, hl⟩ := lookupEvent_isSome_of_mem s.handlers event (by simpa [events] using hmem)
    have hspec := offLoop_spec cb [event] s hs
      (by
        intro e he
        simp only [List.mem_singleton] at he
        subst he
        simp [hl])
    by_cases hany : ((lookupEvent s.handlers event).getD []).any (fun r => r.listener == cb) = true
    · have hfind : List.find? (fun e => ((lookupEvent s.handlers e).getD []).any
          (fun r => r.listener == cb)) [event] = some event := by
        simp [List.find?, hany]
      rw [hfind] at hspec
      obtain ⟨hne', i, hi, hres⟩ := hspec
      rw [hi]
      exact ⟨hne', hres, (offLoop_only_handlers _ _ _).1, (offLoop_only_handlers _ _ _).2.1⟩
    · have hfind : List.find? (fun e => ((lookupEvent s.handlers e).getD []).any
          (fun r => r.listener == cb)) [event] = none := by
        simp [List.find?, hany]
      rw [hfind] at hspec
      rw [findIdx?_eq_none_of_not_any _ _ hany, hspec]
      exact ⟨fun e' _ => rfl, rfl, rfl, rfl⟩
  · rw [if_neg hmem] at hfilter
    rw [hoff, hfilter]
    have hnone : lookupEvent s.handlers event = none :=
      (lookupEvent_eq_none_iff s.handlers event).2 (by simpa [events] using hmem)
    have hfi : ((lookupEvent s.handlers event).getD []).findIdx?
        (fun r => r.listener == cb) = none := by
      rw [hnone]
      rfl
    rw [hfi]
    exact ⟨fun e' _ => rfl, rfl, rfl, rfl⟩

theorem C6_witness :
    (∀ e', e' ≠ 0 → lookupEvent (off stateDup (some 0) (some 4)).handlers e' =
        lookupEvent stateDup.handlers e') ∧
    ((lookupEvent (off stateDup (some 0) (some 4)).handlers 0).getD [] =
        ((lookupEvent stateDup.handlers 0).getD []).eraseIdx 0) ∧
    (off stateDup (some 0) (some 4)).log = stateDup.log ∧
    (off stateDup (some 0) (some 4)).calls = stateDup.calls :=
  C6_off_removes_first_match stateDup ⟨by decide, by decide⟩ 0 4

/-- C7, counterexample: callback 5 is registered under both event 0 and
event 1; a single `off` call with only the callback removes it from event 0
but leaves event 1 untouched — the claim requires removal from each
matching event. -/
theorem C7_counterexample :
    listeners stateTwoEvents 0 = [5] ∧ listeners stateTwoEvents 1 = [5] ∧
    listeners (off stateTwoEvents none (some 5)) 0 = [] ∧
    listeners (off stateTwoEvents none (some 5)) 1 = [5] := by
  exact ⟨rfl, rfl, rfl, rfl⟩

/-- C7, amended: `off` with only a callback scans the registered events in
key order and removes the earliest matching record from the FIRST event
containing a match, then returns at once; every other event is unchanged;
when no event contains a match the state is returned unchanged. -/
theorem C7_off_callback_only_first_event (s : EmitterState) (hs : Inv s) (cb : Nat) :
    match (events s).find? (fun e =>
        ((lookupEvent s.handlers e).getD []).any (fun r => r.listener == cb)) with
    | none => off s none (some cb) = s
    | some e0 =>
        (∀ e', e' ≠ e0 →
          lookupEvent (off s none (some cb)).handlers e' = lookupEvent s.handlers e') ∧
        ∃ i, ((lookupEvent s.handlers e0).getD []).findIdx? (fun r => r.listener == cb) = some i ∧
          (lookupEvent (off s none (some cb)).handlers e0).getD [] =
            ((lookupEvent s.handlers e0).getD []).eraseIdx i := by
  rw [off_none_eq]
  refine offLoop_spec cb (events s) s hs ?_
  intro e he
  obtain ⟨l, hl⟩ := lookupEvent_isSome_of_mem s.handlers e (by simpa [events] using he)
  simp [hl]

theorem C7_witness :
    (∀ e', e' ≠ 0 → lookupEvent (off stateTwoEvents none (some 5)).handlers e' =
        lookupEvent stateTwoEvents.handlers e') ∧
    ∃ i, ((lookupEvent stateTwoEvents.handlers 0).getD []).findIdx?
        (fun r => r.listener == 5) = some i ∧
      (lookupEvent (off stateTwoEvents none (some 5)).handlers 0).getD [] =
        ((lookupEvent stateTwoEvents.handlers 0).getD []).eraseIdx i :=
  C7_off_callback_only_first_event stateTwoEvents ⟨by decide, by decide⟩ 5

end EventEmitterModel

namespace EventEmitterModel

/-- C3: a listener registered via `once` is removed by the very dispatch
that invokes it, whether or not its invocation threw (the environment may
mark `cb` as throwing): provided `cb` is not also registered persistently
for the event, after `once(event, cb)` followed by `emit(event, args)` the
callback is no longer among `listeners(event)`, a subsequent `emit` on the
event (of any argument list) never invokes `cb` again, and if the event's
previous sequence had no persistent record, the removal empties the
sequence and the event key is deleted from the mapping. -/
theorem C3_once_removed_by_dispatch (env : Env) (hIn : InertEnv env) (s : EmitterState)
    (event cb : Nat) (args : List Nat) (fuel : Nat)
    (hf : ((lookupEvent s.handlers event).getD []).length + 1 ≤ fuel)
    (hcb : ∀ r ∈ (lookupEvent s.handlers event).getD [], r.persistent = true → r.listener ≠ cb) :
    ∃ s', emit env fuel (once s event cb false) event args = some (s', true) ∧
      cb ∉ listeners s' event ∧
      (∀ fuel2 args2 s2 b, emit env fuel2 s' event args2 = some (s2, b) →
        ∀ a2, (cb, a2) ∉ s2.calls.drop s'.calls.length) ∧
      ((∀ r ∈ (lookupEvent s.handlers event).getD [], r.persistent = false) →
        lookupEvent s'.handlers event = none) := by
  have hs1 : lookupEvent (once s event cb false).handlers event =
      some ((lookupEvent s.handlers event).getD [] ++ [⟨cb, false⟩]) := by
    simpa using once_lookup_self s event cb false
  have hne : ((lookupEvent s.handlers event).getD [] ++ [(⟨cb, false⟩ : EventListener)]) ≠ [] := by
    simp
  have hkept : ((lookupEvent s.handlers event).getD [] ++
        [(⟨cb, false⟩ : EventListener)]).filter (fun r => r.persistent) =
      ((lookupEvent s.handlers event).getD []).filter (fun r => r.persistent) := by
    simp [List.filter_append]
  have hemit := emit_inert env hIn fuel (once s event cb false) event args
    ((lookupEvent s.handlers event).getD [] ++ [⟨cb, false⟩]) hs1 hne
    (by simpa using hf)
  rw [hkept] at hemit
  by_cases hk : ((((lookupEvent s.handlers event).getD []).filter
      (fun r => r.persistent)).length = 0)
  · rw [if_pos hk] at hemit
    refine ⟨_, hemit, ?_, ?_, ?_⟩
    · simp [listeners, lookupEvent_deleteEvent_self]
    · intro fuel2 args2 s2 b h2 a2
      have h0 : (lookupEvent (deleteEvent (once s event cb false).handlers event) event).getD []
          = [] := by
        simp [lookupEvent_deleteEvent_self]
      rw [emit_false env fuel2 _ event args2 h0] at h2
      rw [Option.some.injEq, Prod.mk.injEq] at h2
      obtain ⟨rfl, -⟩ := h2
      rw [List.drop_length]
      exact List.not_mem_nil _
    · intro _
      exact lookupEvent_deleteEvent_self _ _
  · rw [if_neg hk] at hemit
    have hkne : (((lookupEvent s.handlers event).getD []).filter
        (fun r => r.persistent)) ≠ [] := fun hnil => hk (by rw [hnil]; rfl)
    refine ⟨_, hemit, ?_, ?_, ?_⟩
    · simp only [listeners, lookupEvent_setEvent_self, Option.getD_some]
      intro hmem
      obtain ⟨r, hr, hrl⟩ := List.mem_map.1 hmem
      obtain ⟨hro, hrp⟩ := List.mem_filter.1 hr
      exact hcb r hro (by simpa using hrp) hrl
    · intro fuel2 args2 s2 b h2 a2
      have hlookE : lookupEvent (setEvent (once s event cb false).handlers event
            (((lookupEvent s.handlers event).getD []).filter (fun r => r.persistent))) event =
          some (((lookupEvent s.handlers event).getD []).filter (fun r => r.persistent)) :=
        lookupEvent_setEvent_self _ _ _
      by_cases hf2 : (((lookupEvent s.handlers event).getD []).filter
          (fun r => r.persistent)).length ≤ fuel2
      · rw [emit_inert env hIn fuel2 _ event args2 _ hlookE hkne hf2] at h2
        rw [Option.some.injEq, Prod.mk.injEq] at h2
        obtain ⟨rfl, -⟩ := h2
        intro hmem2
        rw [List.drop_left] at hmem2
        obtain ⟨r, hr, hrl⟩ := List.mem_map.1 hmem2
        obtain ⟨hro, hrp⟩ := List.mem_filter.1 hr
        exact hcb r hro (by simpa using hrp) (by simpa using congrArg Prod.fst hrl)
      · rw [emit_inert_none env hIn fuel2 _ event args2 _ hlookE hkne (by omega)] at h2
        cases h2
    · intro hall
      exfalso
      apply hk
      rw [List.length_eq_zero, List.filter_eq_nil_iff]
      intro r hr
      simp [hall r hr]

theorem C3_witness :
    ∃ s', emit inertEnv 1 (once (mkEmitter none) 0 7 false) 0 [] = some (s', true) ∧
      7 ∉ listeners s' 0 ∧
      (∀ fuel2 args2 s2 b, emit inertEnv fuel2 s' 0 args2 = some (s2, b) →
        ∀ a2, (7, a2) ∉ s2.calls.drop s'.calls.length) ∧
      ((∀ r ∈ (lookupEvent (mkEmitter none).handlers 0).getD [], r.persistent = false) →
        lookupEvent s'.handlers 0 = none) :=
  C3_once_removed_by_dispatch inertEnv inertEnv_inert (mkEmitter none) 0 7 [] 1
    (by simp [mkEmitter, lookupEvent]) (by simp [mkEmitter, lookupEvent])

end EventEmitterModel
